import Mathlib

/-!
# Verification of the SuperMerger prompt utilities

Shallow embedding of `scripts/mergers/prompt_utils.py`, the LoRA-reference
extraction and output-name resolution core of the repository, together with
proofs of the specified properties.

Modelling conventions:
* Python strings are Lean `String`s; parsing works on their `List Char` data.
* The regular expression `<lora:([^:>]+):([^:>]+)(?::([^>]+))?>` used by
  `parse_lora_syntax` is embedded as a deterministic matcher (`matchAt`)
  together with a left-to-right, non-overlapping scanner (`scanLoras`)
  reproducing `re.finditer` semantics.  Greedy character-class runs are
  deterministic here, so no backtracking is needed.
* Python `float` values are embedded as `PyFloat`: an exact decimal
  `num n e` of value `n * 10 ^ e` over the integers, plus the special values
  `inf`, `-inf`, `nan`.  `pyFloatParse` models CPython `float(str)` on
  whitespace-stripped signed decimal literals with optional fraction and
  exponent, plus the case-insensitive special spellings; digit-group
  underscores, hexadecimal spellings and the sign of negative zero are out of
  the modelled scope.  `pyFloatRepr` models `str(float)` in the
  positional-notation range, which is exact for the decimal values arising in
  this development.  All weights compared in this development are produced
  deterministically by the same parser, so the representation (rather than a
  normalised rational) is adequate for equality statements.
* I/O is embedded by its observable result: an `Env` records whether the host
  `lora` registry module imports (`registry = some entries`, where each entry
  can also model a raising attribute access), and whether a LoRA directory
  resolves and exists (`loraDir`), with each scanned file reduced to its
  `stem` and the outcome of `load_lora_metadata` on it.  Two models of that
  outcome are developed: the dict-or-failure restriction (`FileEntry`), under
  which the resolver-level results are stated, and the exception-complete
  model (`FsFile`/`MetaVal`/`build_output_name_lookupE`), which also
  represents a truthy non-dict `__metadata__` value escaping
  `load_lora_metadata` and crashing the scan with an uncaught
  `AttributeError`; `fsScanE_agrees` proves the former is the restriction of
  the latter.
* Python `dict` insertion (`lookup[k] = v`) is embedded as `dictInsert` on an
  association list: overwrite in place if present, else append, preserving
  insertion order exactly as CPython dicts do.
-/

/-- Maximal run of characters satisfying `p`: returns the run and the rest.
This is how each greedy character class of the source regex behaves, since
every class excludes the character that must follow it. -/
def takeRun (p : Char → Bool) : List Char → List Char × List Char
  | [] => ([], [])
  | c :: cs =>
    if p c then
      let pr := takeRun p cs
      (c :: pr.1, pr.2)
    else ([], c :: cs)

/-- Characters admitted by the `[^:>]` classes of the source regex. -/
def nameCharB (c : Char) : Bool := decide (c ≠ ':' ∧ c ≠ '>')

/-- Characters admitted by the `[^>]` class of the source regex. -/
def lbwCharB (c : Char) : Bool := decide (c ≠ '>')

/-- ASCII whitespace as recognised by Python `str.strip()`. -/
def isPySpace (c : Char) : Bool :=
  decide (c = ' ' ∨ c = '\t' ∨ c = '\n' ∨ c = '\r' ∨ c = Char.ofNat 11 ∨ c = Char.ofNat 12)

/-- Python `str.strip()` on character lists. -/
def pyStrip (cs : List Char) : List Char :=
  ((cs.dropWhile isPySpace).reverse.dropWhile isPySpace).reverse

/-- Value of a list of decimal digit characters. -/
def digitsToNat (ds : List Char) : Nat :=
  ds.foldl (fun a c => a * 10 + (c.toNat - 48)) 0

/-- Python `str.lower()` (character-wise lowering, which coincides with
CPython on the ASCII strings this development compares). -/
def pyLower (s : String) : String := String.mk (s.data.map Char.toLower)

/-- A Python float: an exact decimal of value `n * 10 ^ e`, or one of the
special values. -/
inductive PyFloat where
  | num (n : ℤ) (e : ℤ)
  | pinf
  | ninf
  | nan
deriving DecidableEq, Repr

/-- Models CPython `float(s)` (the `float(match.group(2))` call of
`parse_lora_syntax`): strip whitespace, optional sign, then either a special
spelling (`inf`, `infinity`, `nan`, case-insensitive) or a decimal literal
`digits [. digits] [(e|E) [sign] digits]` with at least one mantissa digit.
Returns `none` exactly where CPython raises `ValueError` (within the modelled
scope described in the header). -/
def pyFloatParse (s : String) : Option PyFloat :=
  let cs := pyStrip s.data
  let sgnNeg : Bool := match cs with | '-' :: _ => true | _ => false
  let cs1 := match cs with | '-' :: r => r | '+' :: r => r | r => r
  let low := pyLower (String.mk cs1)
  if low = "inf" ∨ low = "infinity" then
    some (if sgnNeg then PyFloat.ninf else PyFloat.pinf)
  else if low = "nan" then some PyFloat.nan
  else
    let p1 := takeRun Char.isDigit cs1
    let p2 := match p1.2 with
      | '.' :: r => takeRun Char.isDigit r
      | r => (([] : List Char), r)
    if p1.1 = [] ∧ p2.1 = [] then none
    else
      let m := digitsToNat (p1.1 ++ p2.1)
      let n : ℤ := if sgnNeg then -(m : ℤ) else (m : ℤ)
      match p2.2 with
      | [] => some (PyFloat.num n (-(p2.1.length : ℤ)))
      | e :: r =>
        if e = 'e' ∨ e = 'E' then
          let esgnNeg : Bool := match r with | '-' :: _ => true | _ => false
          let r1 := match r with | '-' :: r2 => r2 | '+' :: r2 => r2 | r2 => r2
          let ep := takeRun Char.isDigit r1
          if ep.1 = [] ∨ ep.2 ≠ [] then none
          else
            let ex : ℤ :=
              if esgnNeg then -(digitsToNat ep.1 : ℤ) else (digitsToNat ep.1 : ℤ)
            some (PyFloat.num n (ex - (p2.1.length : ℤ)))
        else none

/-- The `k` decimal digits of `m < 10 ^ k`, most significant first. -/
def fracChars : Nat → Nat → List Char
  | 0, _ => []
  | k + 1, m => Char.ofNat (48 + m / 10 ^ k % 10) :: fracChars k m

/-- Models CPython `str(float)` (the `f-string` rendering of the weight) in
the positional-notation range: sign, integer part, `.`, fraction digits with
trailing zeros removed, a single trailing `0` for integral values, and the
special spellings.  This is the shortest-round-trip decimal form for the
exact decimal values this development evaluates it on. -/
def pyFloatRepr : PyFloat → String
  | PyFloat.pinf => "inf"
  | PyFloat.ninf => "-inf"
  | PyFloat.nan => "nan"
  | PyFloat.num n e =>
    let sign := if n < 0 then "-" else ""
    let m := n.natAbs
    if 0 ≤ e then sign ++ toString (m * 10 ^ e.toNat) ++ ".0"
    else
      let k := (-e).toNat
      let ip := m / 10 ^ k
      let ds := ((fracChars k (m % 10 ^ k)).reverse.dropWhile (fun c => c = '0')).reverse
      sign ++ toString ip ++ "." ++ (if ds = [] then "0" else String.mk ds)

/-- Raw groups of one regex match: `(group 1, group 2, optional group 3)`. -/
abbrev RawRef := List Char × List Char × Option (List Char)

/-- The part of the source regex after the literal `<lora:` tag:
`([^:>]+):([^:>]+)(?::([^>]+))?>`.  Each character class is a maximal run; a
failed optional group cannot be rescued by backtracking because the character
after each run is excluded from the run itself. -/
def matchAfterTag (cs : List Char) : Option (RawRef × List Char) :=
  match takeRun nameCharB cs with
  | (g1, ':' :: r2) =>
    if g1 = [] then none
    else
      match takeRun nameCharB r2 with
      | (g2, '>' :: r4) => if g2 = [] then none else some ((g1, g2, none), r4)
      | (g2, ':' :: r5) =>
        if g2 = [] then none
        else
          match takeRun lbwCharB r5 with
          | (g3, '>' :: r7) => if g3 = [] then none else some ((g1, g2, some g3), r7)
          | _ => none
      | _ => none
  | _ => none

/-- Attempt the source regex at the head of `cs`: the literal tag `<lora:`
followed by `matchAfterTag`.  Returns the groups and the remainder after the
closing `>`. -/
def matchAt : List Char → Option (RawRef × List Char)
  | '<' :: 'l' :: 'o' :: 'r' :: 'a' :: ':' :: rest => matchAfterTag rest
  | _ => none

/-- Fuelled `re.finditer` scanner: try a match at each position left to right;
on success emit it and resume after its end (non-overlapping), on failure
advance one character. -/
def scanGo : Nat → List Char → List RawRef
  | 0, _ => []
  | _ + 1, [] => []
  | fuel + 1, c :: rest =>
    match matchAt (c :: rest) with
    | some pr => pr.1 :: scanGo fuel pr.2
    | none => scanGo fuel rest

/-- All matches of the source regex in `cs`, in order of appearance,
non-overlapping (`re.finditer` semantics).  The fuel `cs.length` is always
sufficient because every match consumes at least one character. -/
def scanLoras (cs : List Char) : List RawRef := scanGo cs.length cs

/-- A parsed LoRA reference: `(name, weight, lbw_params or None)`. -/
structure LoraRef where
  name : String
  weight : PyFloat
  lbw : Option String
deriving DecidableEq, Repr

/-- Post-processing of one regex match, as in the loop body of
`parse_lora_syntax`: strip the name, parse the weight with fallback `1.0` on
`ValueError`, strip the optional third group. -/
def mkRef : RawRef → LoraRef
  | (g1, g2, g3) =>
    ⟨String.mk (pyStrip g1),
      (pyFloatParse (String.mk g2)).getD (PyFloat.num 1 0),
      g3.map (fun g => String.mk (pyStrip g))⟩

/-- `parse_lora_syntax(prompt)`: all regex matches, post-processed in order
(renamed to camel case here). -/
def parseLoraSyntax (prompt : String) : List LoraRef :=
  (scanLoras prompt.data).map mkRef

/-- First value stored under key `k` (Python `d[k]` / `k in d`, as
`Option`). -/
def dictGet (d : List (String × String)) (k : String) : Option String :=
  match d with
  | [] => none
  | kv :: rest => if kv.1 = k then some kv.2 else dictGet rest k

/-- Python `d[k] = v` on an insertion-ordered dict: overwrite in place when
the key is present, otherwise append. -/
def dictInsert (k v : String) (d : List (String × String)) : List (String × String) :=
  if d.any (fun kv => kv.1 == k) then
    d.map (fun kv => if kv.1 = k then (k, v) else kv)
  else d ++ [(k, v)]

/-- Observable behaviour of one host-registry entry when
`build_output_name_lookup` touches it: the attribute access raises (caught by
the inner bare `except`), the metadata attribute is absent or falsy, or it is
a metadata dict (an empty dict is falsy and is skipped by the guard). -/
inductive RegMeta where
  | raises
  | missing
  | dict (md : List (String × String))
deriving DecidableEq

/-- One file found by the `**/*.safetensors` glob, in the dict-or-failure
restriction: its stem and the result of `load_lora_metadata` on it, assuming
that result is a failure or a string-to-string dict.  The
exception-complete file model, which also represents a truthy non-dict
`__metadata__` value, is `FsFile` below; `fsScanE_agrees` proves the scan
over this restriction agrees with the full one on its domain. -/
structure FileEntry where
  stem : String
  readMeta : Option (List (String × String))
deriving DecidableEq

/-- `load_lora_metadata(filepath)` in the dict-or-failure restriction:
reads the 8-byte little-endian header length and the JSON header, returning
`header.get('__metadata__', {})`, or `None` on any exception.  The
byte-level read and JSON decode are embedded by their observable outcome
recorded in the `FileEntry`.  The unrestricted return value — the source
can also return a truthy non-dict `__metadata__` value, contradicting its
own docstring — is modelled by `load_lora_metadataE` below. -/
def load_lora_metadata (f : FileEntry) : Option (List (String × String)) :=
  f.readMeta

/-- Host environment visible to `build_output_name_lookup`:
`registry = none` models `import lora` raising `ImportError`;
`loraDir = none` models `get_lora_directory()` returning `None` or a
non-existing directory. -/
structure Env where
  registry : Option (List (String × RegMeta))
  loraDir : Option (List FileEntry)

/-- Loop body of the registry branch of `build_output_name_lookup`. -/
def regStep (acc : List (String × String)) (entry : String × RegMeta) :
    List (String × String) :=
  match entry.2 with
  | RegMeta.raises => acc
  | RegMeta.missing => acc
  | RegMeta.dict md =>
    if md = [] then acc
    else
      let ss := (dictGet md "ss_output_name").getD ""
      if ss ≠ "" ∧ ss ≠ entry.1 ∧ pyLower ss ≠ "merged" then dictInsert ss entry.1 acc
      else acc

/-- Loop body of the filesystem branch of `build_output_name_lookup`.  Note
that this branch applies only the truthiness guards of the source: unlike the
registry branch it does not exclude self-mappings or the name `merged`. -/
def fsStep (acc : List (String × String)) (f : FileEntry) : List (String × String) :=
  match load_lora_metadata f with
  | none => acc
  | some md =>
    if md = [] then acc
    else
      match dictGet md "ss_output_name" with
      | none => acc
      | some out => if out = "" then acc else dictInsert out f.stem acc

/-- `build_output_name_lookup()`: registry source first (returned even when
empty, matching the early `return lookup` in the `try` block), else the
filesystem scan, else empty. -/
def build_output_name_lookup (env : Env) : List (String × String) :=
  match env.registry with
  | some entries => entries.foldl regStep []
  | none =>
    match env.loraDir with
    | none => []
    | some files => files.foldl fsStep []

/-- The `prompt` argument as Python sees it: `None`, a non-string value, or a
string.  (`not prompt or not isinstance(prompt, str)` sends the first two,
and the empty string, to the early return.) -/
inductive PromptInput where
  | noneVal
  | nonStr
  | str (s : String)

/-- Matching policy of the loop body of `extract_loras_from_prompt`: direct
membership in `selectable_loras` first, else key lookup in the output-name
index followed by membership of the mapped identifier. -/
def matchRef (sel : List String) (lkp : List (String × String)) (name : String) :
    Option String :=
  if name ∈ sel then some name
  else
    match dictGet lkp name with
    | some actual => if actual ∈ sel then some actual else none
    | none => none

/-- Canonical textual form of one reference, as appended to
`formatted_parts`: the `if lbw:` guard treats an empty (whitespace-only
before stripping) third field as absent. -/
def formatPart (r : LoraRef) : String :=
  match r.lbw with
  | some l =>
    if l = "" then r.name ++ ":" ++ pyFloatRepr r.weight
    else r.name ++ ":" ++ pyFloatRepr r.weight ++ ":" ++ l
  | none => r.name ++ ":" ++ pyFloatRepr r.weight

/-- The `for name, weight, lbw in parsed:` loop of
`extract_loras_from_prompt`, accumulating `(checked_loras,
formatted_parts)`. -/
def processRefs (sel : List String) (lkp : List (String × String)) :
    List LoraRef → List String × List String
  | [] => ([], [])
  | r :: rs =>
    let tail := processRefs sel lkp rs
    match matchRef sel lkp r.name with
    | some m => (m :: tail.1, formatPart r :: tail.2)
    | none => (tail.1, formatPart r :: tail.2)

/-- `extract_loras_from_prompt(prompt, selectable_loras)`. -/
def extract_loras_from_prompt (env : Env) (prompt : PromptInput)
    (selectable : Option (List String)) : List String × String :=
  match prompt with
  | PromptInput.str s =>
    if s = "" then ([], "")
    else
      let sel := selectable.getD []
      let parsed := parseLoraSyntax s
      let lkp := build_output_name_lookup env
      let pr := processRefs sel lkp parsed
      (pr.1, String.intercalate "," pr.2)
  | _ => ([], "")

/-- Environment with neither registry nor LoRA directory. -/
def emptyEnv : Env := ⟨none, none⟩

/-- Optional lbw group rendered back into the matched substring. -/
def lbwPart : Option (List Char) → List Char
  | none => []
  | some g => ':' :: g

/-- Modelled from the spec (section 4.1 grammar, for comparison with the
source matcher `matchAt`): a reference is delimited by `<lora:` and `>`, with
two or three colon-separated fields; `name` and `weight` contain neither `:`
nor `>` and are nonempty; the optional third field is the nonempty remainder
up to the closing `>` and may contain `:` but not `>`. -/
def DeclMatch (cs g1 g2 : List Char) (g3 : Option (List Char)) (rest : List Char) :
    Prop :=
  cs = '<' :: 'l' :: 'o' :: 'r' :: 'a' :: ':' :: (g1 ++ ':' :: (g2 ++ lbwPart g3 ++ '>' :: rest))
  ∧ g1 ≠ [] ∧ (∀ c ∈ g1, c ≠ ':' ∧ c ≠ '>')
  ∧ g2 ≠ [] ∧ (∀ c ∈ g2, c ≠ ':' ∧ c ≠ '>')
  ∧ ∀ g, g3 = some g → g ≠ [] ∧ ∀ c ∈ g, c ≠ '>'

/-- Concrete environment whose registry yields the output-name index entry
`TrainedName → file123`. -/
def envC1 : Env :=
  ⟨some [("file123", RegMeta.dict [("ss_output_name", "TrainedName")])], none⟩

/-- Concrete registry-missing environment whose filesystem scan indexes one
self-named file and one file whose output name is `Merged`. -/
def envC2 : Env :=
  ⟨none,
    some [⟨"A", some [("ss_output_name", "A")]⟩,
          ⟨"B", some [("ss_output_name", "Merged")]⟩]⟩

/-- Registry-only environment used to exercise the amended index invariant. -/
def envC2reg : Env :=
  ⟨some [("file123", RegMeta.dict [("ss_output_name", "TrainedName")]),
         ("self", RegMeta.dict [("ss_output_name", "self")]),
         ("m", RegMeta.dict [("ss_output_name", "Merged")]),
         ("boom", RegMeta.raises)], none⟩

/-- A registry entry whose attribute access does not raise. -/
def regOk : RegMeta → Bool
  | RegMeta.raises => false
  | RegMeta.missing => true
  | RegMeta.dict _ => true

/-! ## Exception-complete model of the filesystem scan

The definitions above type the outcome of `load_lora_metadata` as a failure
or a string-to-string dict.  That is the restriction under which the
resolver-level results are stated, but it is not the whole source: the
function returns `header.get('__metadata__', {})` unvalidated, so a corrupt
file whose JSON header carries a truthy non-dict `__metadata__` value (for
example the string `"x"`) flows out of `load_lora_metadata` without raising
and then crashes `build_output_name_lookup` with an uncaught
`AttributeError` at `metadata.get('ss_output_name')`.  The following model
represents that path; `fsScanE_agrees` ties the two models together. -/

/-- The JSON value stored under `__metadata__`, exactly as
`load_lora_metadata` returns it: `header.get('__metadata__', {})` is
whatever JSON value the header carries, not necessarily a dict.
`nonDict truthy` abstracts every non-dict Python value by its truthiness
(a JSON string `"x"` or a nonempty array is `nonDict true`; `""`, `0`,
`false`, `[]` and `null` are `nonDict false`), which together with the
availability of `.get` is everything the downstream code observes. -/
inductive MetaVal where
  | dict (md : List (String × String))
  | nonDict (truthy : Bool)
deriving DecidableEq

/-- One scanned file in the exception-complete model: its stem and the
result of `load_lora_metadata` on it — `none` for any exception raised
inside that function (open/read failure, bad JSON, header itself not a
dict: all caught by its `except Exception`), `some v` for a normal return
of the `__metadata__` value `v` (`dict []` when the key is absent). -/
structure FsFile where
  stem : String
  readResult : Option MetaVal
deriving DecidableEq

/-- `load_lora_metadata(filepath)` in the exception-complete model.  The
source docstring promises a metadata dict or `None`, but the code returns
`header.get('__metadata__', {})` unvalidated, so a truthy non-dict value
can flow out without raising. -/
def load_lora_metadataE (f : FsFile) : Option MetaVal := f.readResult

/-- The exception the filesystem branch of `build_output_name_lookup` can
raise: `metadata.get('ss_output_name')` on a non-dict. -/
inductive PyExc where
  | attributeError
deriving DecidableEq

/-- Loop body of the filesystem scan in the exception-complete model: a
truthy non-dict metadata value passes the `if metadata:` guard and then
crashes at `metadata.get('ss_output_name')`, which no handler catches. -/
def fsStepE (acc : List (String × String)) (f : FsFile) :
    Except PyExc (List (String × String)) :=
  match load_lora_metadataE f with
  | none => Except.ok acc
  | some (MetaVal.nonDict truthy) =>
    if truthy then Except.error PyExc.attributeError else Except.ok acc
  | some (MetaVal.dict md) =>
    if md = [] then Except.ok acc
    else
      match dictGet md "ss_output_name" with
      | none => Except.ok acc
      | some out =>
        if out = "" then Except.ok acc else Except.ok (dictInsert out f.stem acc)

/-- The `for filepath in lora_dir.glob(...)` loop: an uncaught exception in
one iteration aborts the whole scan. -/
def fsScanE : List (String × String) → List FsFile → Except PyExc (List (String × String))
  | acc, [] => Except.ok acc
  | acc, f :: fs =>
    match fsStepE acc f with
    | Except.ok acc2 => fsScanE acc2 fs
    | Except.error e => Except.error e

/-- `build_output_name_lookup()` in the exception-complete model: the
registry branch still swallows per-entry failures, but in the filesystem
branch an `AttributeError` escapes the function. -/
def build_output_name_lookupE (registry : Option (List (String × RegMeta)))
    (loraDir : Option (List FsFile)) : Except PyExc (List (String × String)) :=
  match registry with
  | some entries => Except.ok (entries.foldl regStep [])
  | none =>
    match loraDir with
    | none => Except.ok []
    | some files => fsScanE [] files

/-- Restriction of an exception-complete file to the dict-or-failure
model. -/
def toFileEntry (f : FsFile) : FileEntry :=
  ⟨f.stem,
    match f.readResult with
    | some (MetaVal.dict md) => some md
    | _ => none⟩

/-- A scanned file whose metadata reads back with `ss_output_name = G1`. -/
def goodFile1 : FsFile := ⟨"good1", some (MetaVal.dict [("ss_output_name", "G1")])⟩

/-- A corrupt file whose JSON header is `\x7b"__metadata__": "x"\x7d`:
`load_lora_metadata` returns the truthy string `"x"` without raising. -/
def poisonFile : FsFile := ⟨"poison", some (MetaVal.nonDict true)⟩

/-- A file whose read raises inside `load_lora_metadata` (unreadable, or
invalid JSON), caught there and turned into `None`. -/
def unreadableFile : FsFile := ⟨"broken", none⟩

/-- A second well-formed file, scanned after the others. -/
def goodFile2 : FsFile := ⟨"good2", some (MetaVal.dict [("ss_output_name", "G2")])⟩

/-! ## Helper lemmas on `takeRun` -/

theorem takeRun_append (p : Char → Bool) :
    ∀ cs : List Char, (takeRun p cs).1 ++ (takeRun p cs).2 = cs
  | [] => rfl
  | c :: cs => by
    by_cases h : p c
    · simp [takeRun, h, takeRun_append p cs]
    · simp [takeRun, h]

theorem takeRun_mem (p : Char → Bool) :
    ∀ cs : List Char, ∀ c ∈ (takeRun p cs).1, p c = true
  | [] => by simp [takeRun]
  | c :: cs => by
    by_cases h : p c
    · simpa [takeRun, h] using takeRun_mem p cs
    · simp [takeRun, h]

theorem takeRun_head (p : Char → Bool) :
    ∀ cs : List Char, ∀ d rs, (takeRun p cs).2 = d :: rs → p d = false
  | [] => by simp [takeRun]
  | c :: cs => by
    by_cases h : p c
    · simpa [takeRun, h] using takeRun_head p cs
    · intro d rs he
      simp [takeRun, h] at he
      rw [← he.1]
      exact Bool.of_not_eq_true h

theorem takeRun_unique (p : Char → Bool) :
    ∀ t r : List Char, (∀ c ∈ t, p c = true) → (∀ d rs, r = d :: rs → p d = false) →
      takeRun p (t ++ r) = (t, r)
  | [], r, _, hr => by
    cases r with
    | nil => rfl
    | cons d rs => simp [takeRun, hr d rs rfl]
  | c :: t, r, ht, hr => by
    have hc : p c = true := ht c (by simp)
    simp [takeRun, hc, takeRun_unique p t r (fun x hx => ht x (by simp [hx])) hr]

/-! ## The matcher agrees with the declarative grammar -/

theorem nameCharB_iff (c : Char) : nameCharB c = true ↔ c ≠ ':' ∧ c ≠ '>' := by
  simp [nameCharB]

theorem lbwCharB_iff (c : Char) : lbwCharB c = true ↔ c ≠ '>' := by
  simp [lbwCharB]

theorem matchAfterTag_iff (cs g1 g2 : List Char) (g3 : Option (List Char)) (rest : List Char) :
    matchAfterTag cs = some ((g1, g2, g3), rest) ↔
      (cs = g1 ++ ':' :: (g2 ++ lbwPart g3 ++ '>' :: rest)
        ∧ g1 ≠ [] ∧ (∀ c ∈ g1, c ≠ ':' ∧ c ≠ '>')
        ∧ g2 ≠ [] ∧ (∀ c ∈ g2, c ≠ ':' ∧ c ≠ '>')
        ∧ ∀ g, g3 = some g → g ≠ [] ∧ ∀ c ∈ g, c ≠ '>') := by
  constructor
  · intro h
    unfold matchAfterTag at h
    split at h
    case _ t1 r2 heq1 =>
      have e1 := takeRun_append nameCharB cs
      rw [heq1] at e1
      have m1 : ∀ c ∈ t1, c ≠ ':' ∧ c ≠ '>' := by
        intro c hc
        exact (nameCharB_iff c).mp ((heq1 ▸ takeRun_mem nameCharB cs) c (by simp [heq1, hc]))
      split at h
      · exact absurd h (by simp)
      case _ h1ne =>
        split at h
        case _ t2 r4 heq2 =>
          have e2 := takeRun_append nameCharB r2
          rw [heq2] at e2
          have m2 : ∀ c ∈ t2, c ≠ ':' ∧ c ≠ '>' := by
            intro c hc
            exact (nameCharB_iff c).mp ((heq2 ▸ takeRun_mem nameCharB r2) c (by simp [heq2, hc]))
          split at h
          · exact absurd h (by simp)
          case _ h2ne =>
            obtain ⟨⟨he1, he2, he3⟩, he4⟩ : (t1 = g1 ∧ t2 = g2 ∧ none = g3) ∧ r4 = rest := by
              simpa using h
            subst he1; subst he2; subst he4
            refine ⟨?_, h1ne, m1, h2ne, m2, ?_⟩
            · rw [← e1, ← e2, ← he3]; simp [lbwPart]
            · intro g hg; rw [← he3] at hg; exact absurd hg (by simp)
        case _ t2 r5 heq2 =>
          have e2 := takeRun_append nameCharB r2
          rw [heq2] at e2
          have m2 : ∀ c ∈ t2, c ≠ ':' ∧ c ≠ '>' := by
            intro c hc
            exact (nameCharB_iff c).mp ((heq2 ▸ takeRun_mem nameCharB r2) c (by simp [heq2, hc]))
          split at h
          · exact absurd h (by simp)
          case _ h2ne =>
            split at h
            case _ t3 r7 heq3 =>
              have e3 := takeRun_append lbwCharB r5
              rw [heq3] at e3
              have m3 : ∀ c ∈ t3, c ≠ '>' := by
                intro c hc
                exact (lbwCharB_iff c).mp ((heq3 ▸ takeRun_mem lbwCharB r5) c (by simp [heq3, hc]))
              split at h
              · exact absurd h (by simp)
              case _ h3ne =>
                obtain ⟨⟨he1, he2, he3⟩, he4⟩ : (t1 = g1 ∧ t2 = g2 ∧ some t3 = g3) ∧ r7 = rest := by
                  simpa using h
                subst he1; subst he2; subst he4
                refine ⟨?_, h1ne, m1, h2ne, m2, ?_⟩
                · rw [← e1, ← e2, ← e3, ← he3]; simp [lbwPart]
                · intro g hg
                  rw [← he3] at hg
                  obtain rfl : t3 = g := by simpa using hg
                  exact ⟨h3ne, m3⟩
            case _ =>
              exact absurd h (by simp)
        case _ hne1 hne2 =>
          exact absurd h (by simp)
    case _ =>
      exact absurd h (by simp)
  · rintro ⟨hcs, h1ne, h1c, h2ne, h2c, h3⟩
    subst hcs
    have t1 : takeRun nameCharB (g1 ++ ':' :: (g2 ++ lbwPart g3 ++ '>' :: rest))
        = (g1, ':' :: (g2 ++ lbwPart g3 ++ '>' :: rest)) := by
      apply takeRun_unique
      · intro c hc; exact (nameCharB_iff c).mpr (h1c c hc)
      · intro d rs he
        obtain rfl : d = ':' := by
          have := congrArg (fun l => l.head?) he
          simpa using this.symm
        rfl
    cases g3 with
    | none =>
      have t2 : takeRun nameCharB (g2 ++ lbwPart none ++ '>' :: rest) = (g2, '>' :: rest) := by
        have hsh : g2 ++ lbwPart none ++ '>' :: rest = g2 ++ '>' :: rest := by simp [lbwPart]
        rw [hsh]
        apply takeRun_unique
        · intro c hc; exact (nameCharB_iff c).mpr (h2c c hc)
        · intro d rs he
          obtain rfl : d = '>' := by
            have := congrArg (fun l => l.head?) he
            simpa using this.symm
          rfl
      unfold matchAfterTag
      rw [t1]
      simp only [t2, h1ne, h2ne]
      simp
    | some g =>
      obtain ⟨hgne, hgc⟩ := h3 g rfl
      have hsh : g2 ++ lbwPart (some g) ++ '>' :: rest = g2 ++ ':' :: (g ++ '>' :: rest) := by
        simp [lbwPart]
      have t2 : takeRun nameCharB (g2 ++ lbwPart (some g) ++ '>' :: rest)
          = (g2, ':' :: (g ++ '>' :: rest)) := by
        rw [hsh]
        apply takeRun_unique
        · intro c hc; exact (nameCharB_iff c).mpr (h2c c hc)
        · intro d rs he
          obtain rfl : d = ':' := by
            have := congrArg (fun l => l.head?) he
            simpa using this.symm
          rfl
      have t3 : takeRun lbwCharB (g ++ '>' :: rest) = (g, '>' :: rest) := by
        apply takeRun_unique
        · intro c hc; exact (lbwCharB_iff c).mpr (hgc c hc)
        · intro d rs he
          obtain rfl : d = '>' := by
            have := congrArg (fun l => l.head?) he
            simpa using this.symm
          rfl
      unfold matchAfterTag
      rw [t1]
      simp only [t2, t3, h1ne, h2ne, hgne]
      simp [hgne]

theorem matchAt_iff (cs g1 g2 : List Char) (g3 : Option (List Char)) (rest : List Char) :
    matchAt cs = some ((g1, g2, g3), rest) ↔ DeclMatch cs g1 g2 g3 rest := by
  constructor
  · intro h
    unfold matchAt at h
    split at h
    case _ body =>
      obtain ⟨hb, hrest⟩ := (matchAfterTag_iff body g1 g2 g3 rest).mp h
      exact ⟨by rw [hb], hrest⟩
    case _ =>
      exact absurd h (by simp)
  · rintro ⟨hcs, hrest⟩
    subst hcs
    simpa only [matchAt] using
      (matchAfterTag_iff (g1 ++ ':' :: (g2 ++ lbwPart g3 ++ '>' :: rest)) g1 g2 g3 rest).mpr
        ⟨rfl, hrest⟩

theorem matchAfterTag_length (cs : List Char) (pr : RawRef × List Char)
    (h : matchAfterTag cs = some pr) : pr.2.length < cs.length := by
  obtain ⟨⟨g1, g2, g3⟩, rest⟩ := pr
  obtain ⟨hcs, h1⟩ := (matchAfterTag_iff cs g1 g2 g3 rest).mp h
  subst hcs
  simp [List.length_append]
  omega

theorem matchAt_length (cs : List Char) (pr : RawRef × List Char)
    (h : matchAt cs = some pr) : pr.2.length < cs.length := by
  obtain ⟨⟨g1, g2, g3⟩, rest⟩ := pr
  obtain ⟨hcs, h1⟩ := (matchAt_iff cs g1 g2 g3 rest).mp h
  subst hcs
  simp [List.length_append]
  omega

/-! ## Scanner lemmas -/

theorem scanGo_congr : ∀ f1 : Nat, ∀ f2 : Nat, ∀ cs : List Char,
    cs.length ≤ f1 → cs.length ≤ f2 → scanGo f1 cs = scanGo f2 cs
  | 0, f2, cs, ha, _ => by
    obtain rfl : cs = [] := List.eq_nil_of_length_eq_zero (Nat.le_zero.mp ha)
    cases f2 <;> rfl
  | _ + 1, f2, [], _, _ => by cases f2 <;> rfl
  | f1 + 1, 0, c :: rest, _, hb => by simp at hb
  | f1 + 1, f2 + 1, c :: rest, ha, hb => by
    simp only [List.length_cons] at ha hb
    simp only [scanGo]
    cases hm : matchAt (c :: rest) with
    | none =>
      show scanGo f1 rest = scanGo f2 rest
      exact scanGo_congr f1 f2 rest (by omega) (by omega)
    | some pr =>
      have hl := matchAt_length _ _ hm
      simp only [List.length_cons] at hl
      show pr.1 :: scanGo f1 pr.2 = pr.1 :: scanGo f2 pr.2
      rw [scanGo_congr f1 f2 pr.2 (by omega) (by omega)]

theorem scanLoras_cons_some (c : Char) (cs : List Char) (pr : RawRef × List Char)
    (h : matchAt (c :: cs) = some pr) : scanLoras (c :: cs) = pr.1 :: scanLoras pr.2 := by
  have hl := matchAt_length _ _ h
  simp only [List.length_cons] at hl
  unfold scanLoras
  simp only [List.length_cons, scanGo, h]
  rw [scanGo_congr cs.length pr.2.length pr.2 (by omega) (le_refl _)]

theorem scanLoras_cons_none (c : Char) (cs : List Char)
    (h : matchAt (c :: cs) = none) : scanLoras (c :: cs) = scanLoras cs := by
  unfold scanLoras
  simp only [List.length_cons, scanGo, h]

/-! ## Resolver and index helper lemmas -/

theorem processRefs_eq (sel : List String) (lkp : List (String × String)) :
    ∀ rs : List LoraRef,
      processRefs sel lkp rs
        = (rs.filterMap (fun r => matchRef sel lkp r.name), rs.map formatPart)
  | [] => rfl
  | r :: rs => by
    simp only [processRefs, processRefs_eq sel lkp rs, List.filterMap_cons, List.map_cons]
    cases matchRef sel lkp r.name <;> simp

theorem dictInsert_mem (k v : String) (d : List (String × String)) (kv : String × String)
    (h : kv ∈ dictInsert k v d) : kv = (k, v) ∨ kv ∈ d := by
  unfold dictInsert at h
  split at h
  · obtain ⟨p, hp, he⟩ := List.mem_map.mp h
    by_cases hk : p.1 = k
    · left
      rw [← he]
      simp [hk]
    · right
      rw [← he]
      simpa [hk] using hp
  · rcases List.mem_append.mp h with h1 | h1
    · right
      exact h1
    · left
      simpa using h1

theorem regFold_inv :
    ∀ (entries : List (String × RegMeta)) (acc : List (String × String)),
      (∀ kv ∈ acc, kv.1 ≠ kv.2 ∧ pyLower kv.1 ≠ "merged") →
      ∀ kv ∈ List.foldl regStep acc entries, kv.1 ≠ kv.2 ∧ pyLower kv.1 ≠ "merged"
  | [], acc, hacc => by simpa using hacc
  | e :: entries, acc, hacc => by
    apply regFold_inv entries
    intro kv hkv
    unfold regStep at hkv
    split at hkv
    · exact hacc kv hkv
    · exact hacc kv hkv
    · split at hkv
      · exact hacc kv hkv
      · rename_i md heq hne
        have hkv2 : kv ∈
            (if (dictGet md "ss_output_name").getD "" ≠ ""
                ∧ (dictGet md "ss_output_name").getD "" ≠ e.1
                ∧ pyLower ((dictGet md "ss_output_name").getD "") ≠ "merged" then
              dictInsert ((dictGet md "ss_output_name").getD "") e.1 acc
            else acc) := hkv
        split at hkv2
        case _ hcond =>
          rcases dictInsert_mem _ _ _ _ hkv2 with he | hm
          · rw [he]
            exact ⟨hcond.2.1, hcond.2.2⟩
          · exact hacc kv hm
        case _ =>
          exact hacc kv hkv2

theorem fsFold_skip :
    ∀ (files : List FileEntry) (acc : List (String × String)),
      List.foldl fsStep acc files
        = List.foldl fsStep acc (files.filter fun f => f.readMeta.isSome)
  | [], _ => rfl
  | f :: files, acc => by
    cases hm : f.readMeta with
    | none =>
      have hstep : fsStep acc f = acc := by
        simp [fsStep, load_lora_metadata, hm]
      simp only [List.foldl_cons, List.filter_cons, hm, Option.isSome_none, hstep,
        Bool.false_eq_true, if_false]
      exact fsFold_skip files acc
    | some md =>
      simp only [List.foldl_cons, List.filter_cons, hm, Option.isSome_some, if_true]
      exact fsFold_skip files (fsStep acc f)

theorem regFold_skip :
    ∀ (entries : List (String × RegMeta)) (acc : List (String × String)),
      List.foldl regStep acc entries
        = List.foldl regStep acc (entries.filter fun e => regOk e.2)
  | [], _ => rfl
  | e :: entries, acc => by
    cases hm : e.2 with
    | raises =>
      have hstep : regStep acc e = acc := by
        simp [regStep, hm]
      simp only [List.foldl_cons, List.filter_cons, hm, regOk, hstep,
        Bool.false_eq_true, if_false]
      exact regFold_skip entries acc
    | missing =>
      simp only [List.foldl_cons, List.filter_cons, hm, regOk, if_true]
      exact regFold_skip entries (regStep acc e)
    | dict md =>
      simp only [List.foldl_cons, List.filter_cons, hm, regOk, if_true]
      exact regFold_skip entries (regStep acc e)

theorem pyStrip_allSpace (g : List Char) (h : ∀ c ∈ g, isPySpace c = true) :
    pyStrip g = [] := by
  unfold pyStrip
  have h1 : g.dropWhile isPySpace = [] := by
    simp only [List.dropWhile_eq_nil_iff]
    exact h
  simp [h1]

/-! ## Claims -/

/-- C1: `extract_loras_from_prompt` resolves every parsed reference with a
first-match-wins policy — a name present in the selectable list is recorded
as itself; otherwise a name that is a key of the output-name index whose
mapped identifier is selectable is recorded as that identifier; otherwise
nothing is recorded, while the reference still contributes its part to the
canonical string.  In particular, with index entry `TrainedName → file123`
and selectable `[file123]`, resolving `<lora:TrainedName:1>` yields
`([file123], "TrainedName:1.0")`. -/
theorem C1_first_match_policy :
    (∀ sel lkp name, name ∈ sel → matchRef sel lkp name = some name)
    ∧ (∀ sel lkp name actual, name ∉ sel → dictGet lkp name = some actual →
        actual ∈ sel → matchRef sel lkp name = some actual)
    ∧ (∀ sel lkp name, name ∉ sel → dictGet lkp name = none →
        matchRef sel lkp name = none)
    ∧ (∀ sel lkp name actual, name ∉ sel → dictGet lkp name = some actual →
        actual ∉ sel → matchRef sel lkp name = none)
    ∧ (∀ env s sel,
        (extract_loras_from_prompt env (PromptInput.str s) (some sel)).1
          = (parseLoraSyntax s).filterMap
              (fun r => matchRef sel (build_output_name_lookup env) r.name))
    ∧ (∀ env s sel,
        (extract_loras_from_prompt env (PromptInput.str s) (some sel)).2
          = String.intercalate "," ((parseLoraSyntax s).map formatPart))
    ∧ extract_loras_from_prompt envC1 (PromptInput.str "<lora:TrainedName:1>")
        (some ["file123"]) = (["file123"], "TrainedName:1.0") := by
  refine ⟨?_, ?_, ?_, ?_, ?_, ?_, by decide⟩
  · intro sel lkp name h
    simp [matchRef, h]
  · intro sel lkp name actual h1 h2 h3
    simp [matchRef, h1, h2, h3]
  · intro sel lkp name h1 h2
    simp [matchRef, h1, h2]
  · intro sel lkp name actual h1 h2 h3
    simp [matchRef, h1, h2, h3]
  · intro env s sel
    by_cases hs : s = ""
    · subst hs
      simp [extract_loras_from_prompt, parseLoraSyntax, scanLoras, scanGo]
    · simp [extract_loras_from_prompt, hs, processRefs_eq]
  · intro env s sel
    by_cases hs : s = ""
    · subst hs
      simp [extract_loras_from_prompt, parseLoraSyntax, scanLoras, scanGo]
      rfl
    · simp [extract_loras_from_prompt, hs, processRefs_eq]

/-- Witness for C1 at concrete inputs: the second-stage rule fires for
`TrainedName` resolving through the index to the selectable `file123`. -/
theorem C1_first_match_policy_witness :
    matchRef ["file123"] [("TrainedName", "file123")] "TrainedName" = some "file123" := by
  exact C1_first_match_policy.2.1 ["file123"] [("TrainedName", "file123")] "TrainedName"
    "file123" (by decide) (by decide) (by decide)

/-- C2 counterexample: in the filesystem branch of
`build_output_name_lookup` the exclusions are not applied, so a registry-less
environment with a file of stem `A` declaring output name `A`, and a file of
stem `B` declaring output name `Merged`, produces a lookup containing a
self-mapping and a key that lowercases to `merged`. -/
theorem C2_counterexample :
    ¬ ∀ kv ∈ build_output_name_lookup envC2, kv.1 ≠ kv.2 ∧ pyLower kv.1 ≠ "merged" := by
  decide

/-- C2 (amended): for every mapping produced by the registry data source of
`build_output_name_lookup`, no key equals its own mapped identifier and no
key is case-insensitively equal to `"merged"`.  (The filesystem-scan source
applies no such exclusions, as `C2_counterexample` shows.) -/
theorem C2_registry_invariant (env : Env) (entries : List (String × RegMeta))
    (h : env.registry = some entries) :
    ∀ kv ∈ build_output_name_lookup env, kv.1 ≠ kv.2 ∧ pyLower kv.1 ≠ "merged" := by
  unfold build_output_name_lookup
  rw [h]
  exact regFold_inv entries [] (by simp)

/-- Witness for the amended C2: the one entry the concrete registry
produces satisfies the invariant. -/
theorem C2_registry_invariant_witness :
    ("TrainedName", "file123") ∈ build_output_name_lookup envC2reg
    ∧ "TrainedName" ≠ "file123" ∧ pyLower "TrainedName" ≠ "merged" := by
  have hmem : ("TrainedName", "file123") ∈ build_output_name_lookup envC2reg := by decide
  have h := C2_registry_invariant envC2reg
    [("file123", RegMeta.dict [("ss_output_name", "TrainedName")]),
     ("self", RegMeta.dict [("ss_output_name", "self")]),
     ("m", RegMeta.dict [("ss_output_name", "Merged")]),
     ("boom", RegMeta.raises)] rfl ("TrainedName", "file123") hmem
  exact ⟨hmem, h⟩

/-- In the dict-or-failure restriction the lookup builder degrades rather
than failing: no sources give an empty mapping, read-failure files and
raising registry entries are skipped.  (This is the fragment of the original
robustness claim that survives `C3_scan_crash`.) -/
theorem build_lookup_degradation :
    build_output_name_lookup ⟨none, none⟩ = []
    ∧ (∀ files, build_output_name_lookup ⟨none, some files⟩
        = build_output_name_lookup ⟨none, some (files.filter fun f => f.readMeta.isSome)⟩)
    ∧ (∀ entries dir, build_output_name_lookup ⟨some entries, dir⟩
        = build_output_name_lookup ⟨some (entries.filter fun e => regOk e.2), dir⟩) := by
  refine ⟨rfl, ?_, ?_⟩
  · intro files
    simpa [build_output_name_lookup] using fsFold_skip files []
  · intro entries dir
    simpa [build_output_name_lookup] using regFold_skip entries []

/-- A file that does not carry a truthy non-dict `__metadata__` value is
processed by the exception-complete scan exactly as the restricted scan
processes its restriction. -/
theorem fsStepE_agrees (acc : List (String × String)) (f : FsFile)
    (h : f.readResult ≠ some (MetaVal.nonDict true)) :
    fsStepE acc f = Except.ok (fsStep acc (toFileEntry f)) := by
  cases hr : f.readResult with
  | none => simp [fsStepE, fsStep, toFileEntry, load_lora_metadataE, load_lora_metadata, hr]
  | some v =>
    cases v with
    | nonDict b =>
      cases b with
      | false =>
        simp [fsStepE, fsStep, toFileEntry, load_lora_metadataE, load_lora_metadata, hr]
      | true => exact absurd hr h
    | dict md =>
      by_cases hmd : md = []
      · simp [fsStepE, fsStep, toFileEntry, load_lora_metadataE, load_lora_metadata, hr, hmd]
      · cases hg : dictGet md "ss_output_name" with
        | none =>
          simp [fsStepE, fsStep, toFileEntry, load_lora_metadataE, load_lora_metadata,
            hr, hmd, hg]
        | some out =>
          by_cases ho : out = ""
          · simp [fsStepE, fsStep, toFileEntry, load_lora_metadataE, load_lora_metadata,
              hr, hmd, hg, ho]
          · simp [fsStepE, fsStep, toFileEntry, load_lora_metadataE, load_lora_metadata,
              hr, hmd, hg, ho]

/-- The dict-or-failure scan is the restriction of the exception-complete
scan: on file lists without a truthy non-dict `__metadata__` value the full
scan succeeds and computes exactly the restricted fold. -/
theorem fsScanE_agrees :
    ∀ (files : List FsFile) (acc : List (String × String)),
      (∀ f ∈ files, f.readResult ≠ some (MetaVal.nonDict true)) →
      fsScanE acc files = Except.ok (List.foldl fsStep acc (files.map toFileEntry))
  | [], acc, _ => rfl
  | f :: fs, acc, h => by
    have h1 := fsStepE_agrees acc f (h f (by simp))
    simp only [fsScanE, h1, List.map_cons, List.foldl_cons]
    exact fsScanE_agrees fs (fsStep acc (toFileEntry f)) (fun g hg => h g (by simp [hg]))

/-- Lookup-level agreement of the two models on non-poisoned directories. -/
theorem build_lookupE_agrees (registry : Option (List (String × RegMeta)))
    (files : List FsFile)
    (h : ∀ f ∈ files, f.readResult ≠ some (MetaVal.nonDict true)) :
    build_output_name_lookupE registry (some files)
      = Except.ok (build_output_name_lookup ⟨registry, some (files.map toFileEntry)⟩) := by
  cases registry with
  | some entries => rfl
  | none =>
    simp only [build_output_name_lookupE, build_output_name_lookup]
    exact fsScanE_agrees files [] h

/-- C3 (code bug): the claim that `build_output_name_lookup` never raises
and merely skips corrupt files is right about the intent —
`load_lora_metadata` documents that it returns a metadata dict or `None` —
but the code has a slip: on a file whose JSON header is
`\x7b"__metadata__": "x"\x7d` it returns the truthy string without raising,
the `if metadata:` guard passes, and `metadata.get('ss_output_name')`
raises an uncaught `AttributeError`, aborting the scan so later valid files
are never indexed.  Genuine read failures, by contrast, are skipped as the
claim describes. -/
theorem C3_scan_crash :
    load_lora_metadataE poisonFile = some (MetaVal.nonDict true)
    ∧ build_output_name_lookupE none (some [goodFile1, poisonFile, goodFile2])
        = Except.error PyExc.attributeError
    ∧ build_output_name_lookupE none (some [goodFile1, unreadableFile, goodFile2])
        = Except.ok [("G1", "good1"), ("G2", "good2")]
    ∧ build_output_name_lookupE none (some [goodFile1, goodFile2])
        = Except.ok [("G1", "good1"), ("G2", "good2")] := by
  exact ⟨rfl, rfl, rfl, rfl⟩

/-- C4: a reference whose weight field does not parse as a number is kept,
with weight defaulting to `1.0`; no raw match is ever discarded by
`parse_lora_syntax`; concretely `<lora:A:oops>` resolves against `[A]` to
`([A], "A:1.0")`. -/
theorem C4_weight_fallback :
    (∀ g1 g2 g3, pyFloatParse (String.mk g2) = none →
      mkRef (g1, g2, g3) = ⟨String.mk (pyStrip g1), PyFloat.num 1 0,
        g3.map (fun g => String.mk (pyStrip g))⟩)
    ∧ (∀ s, (parseLoraSyntax s).length = (scanLoras s.data).length)
    ∧ extract_loras_from_prompt emptyEnv (PromptInput.str "<lora:A:oops>") (some ["A"])
        = (["A"], "A:1.0") := by
  refine ⟨?_, ?_, by decide⟩
  · intro g1 g2 g3 h
    simp [mkRef, h]
  · intro s
    simp [parseLoraSyntax]

/-- Witness for C4: the fallback weight at the unparsable field `oops`. -/
theorem C4_weight_fallback_witness :
    mkRef (['A'], ['o', 'o', 'p', 's'], none)
      = ⟨"A", PyFloat.num 1 0, none⟩ := by
  have h := C4_weight_fallback.1 ['A'] ['o', 'o', 'p', 's'] none (by decide)
  simpa using h

/-- C5: matched identifiers and canonical parts follow the left-to-right
occurrence order of the references, duplicates preserved: the resolver loop
produces exactly the order-preserving `filterMap` of the matching policy and
the order-preserving `map` of the formatter over the parsed list, and
concretely `<lora:A:1><lora:B:1><lora:A:1>` against `[A, B]` yields
`([A, B, A], "A:1.0,B:1.0,A:1.0")`. -/
theorem C5_order_preserving :
    (∀ sel lkp rs, processRefs sel lkp rs
        = (rs.filterMap (fun r => matchRef sel lkp r.name), rs.map formatPart))
    ∧ extract_loras_from_prompt emptyEnv
        (PromptInput.str "<lora:A:1><lora:B:1><lora:A:1>") (some ["A", "B"])
        = (["A", "B", "A"], "A:1.0,B:1.0,A:1.0") := by
  exact ⟨fun sel lkp rs => processRefs_eq sel lkp rs, by decide⟩

/-- C6: a `None`, non-string or empty prompt, and any prompt without a
single regex match, resolve to `([], "")` for every selectable argument
(including an absent one), with no failure. -/
theorem C6_trivial_inputs :
    (∀ env sel, extract_loras_from_prompt env PromptInput.noneVal sel = ([], ""))
    ∧ (∀ env sel, extract_loras_from_prompt env PromptInput.nonStr sel = ([], ""))
    ∧ (∀ env sel, extract_loras_from_prompt env (PromptInput.str "") sel = ([], ""))
    ∧ ∀ env sel s, parseLoraSyntax s = [] →
        extract_loras_from_prompt env (PromptInput.str s) sel = ([], "") := by
  refine ⟨fun env sel => rfl, fun env sel => rfl, fun env sel => rfl, ?_⟩
  intro env sel s h
  by_cases hs : s = ""
  · subst hs
    rfl
  · simp only [extract_loras_from_prompt, hs, if_false, h, processRefs]
    rfl

/-- Witness for C6 at the matchless prompt `hello` with a selectable list. -/
theorem C6_trivial_inputs_witness :
    extract_loras_from_prompt emptyEnv (PromptInput.str "hello") (some ["A"]) = ([], "") := by
  exact C6_trivial_inputs.2.2.2 emptyEnv (some ["A"]) "hello" (by decide)

/-- C7: the matcher accepts exactly the strings of the declarative grammar —
`<lora:` then a nonempty name without `:` or `>`, `:`, a nonempty weight
field without `:` or `>`, optionally `:` followed by a nonempty lbw field
without `>`, then `>` — and the scanner emits matches left to right,
resuming after each match (non-overlapping) and advancing one position on
failure; `parseLoraSyntax` trims whitespace around name and lbw fields. -/
theorem C7_grammar :
    (∀ cs g1 g2 g3 rest,
      matchAt cs = some ((g1, g2, g3), rest) ↔ DeclMatch cs g1 g2 g3 rest)
    ∧ (∀ c cs pr, matchAt (c :: cs) = some pr →
        scanLoras (c :: cs) = pr.1 :: scanLoras pr.2)
    ∧ (∀ c cs, matchAt (c :: cs) = none → scanLoras (c :: cs) = scanLoras cs)
    ∧ parseLoraSyntax "<lora: A :1: x >" = [⟨"A", PyFloat.num 1 0, some "x"⟩] := by
  exact ⟨matchAt_iff, scanLoras_cons_some, scanLoras_cons_none, by decide⟩

/-- Witness for C7: the grammar accepts `<lora:A:1>` and the scanner emits
its single match. -/
theorem C7_grammar_witness :
    DeclMatch ("<lora:A:1>".data) ['A'] ['1'] none []
    ∧ scanLoras ('<' :: "lora:A:1>".data) = [(['A'], ['1'], none)] := by
  constructor
  · exact (C7_grammar.1 ("<lora:A:1>".data) ['A'] ['1'] none []).mp (by decide)
  · have h := C7_grammar.2.1 '<' ("lora:A:1>".data)
      ((['A'], ['1'], none), ([] : List Char)) (by decide)
    rw [h]
    decide

/-- C8: an lbw field is carried into the canonical part verbatim — the
formatter appends it unchanged after the weight, the loop maps the formatter
over the references in order, and `<lora:A:1:0,0,1,1>` round-trips its
`0,0,1,1` exactly. -/
theorem C8_lbw_passthrough :
    (∀ (r : LoraRef) (l : String), r.lbw = some l → l ≠ "" →
      formatPart r = r.name ++ ":" ++ pyFloatRepr r.weight ++ ":" ++ l)
    ∧ (∀ sel lkp rs, (processRefs sel lkp rs).2 = rs.map formatPart)
    ∧ parseLoraSyntax "<lora:A:1:0,0,1,1>" = [⟨"A", PyFloat.num 1 0, some "0,0,1,1"⟩]
    ∧ extract_loras_from_prompt emptyEnv (PromptInput.str "<lora:A:1:0,0,1,1>")
        (some ["A"]) = (["A"], "A:1.0:0,0,1,1") := by
  refine ⟨?_, ?_, by decide, by decide⟩
  · intro r l h hne
    simp [formatPart, h, hne]
  · intro sel lkp rs
    simp [processRefs_eq]

/-- Witness for C8 on the concrete reference with lbw `0,0,1,1`. -/
theorem C8_lbw_passthrough_witness :
    formatPart ⟨"A", PyFloat.num 1 0, some "0,0,1,1"⟩ = "A:1.0:0,0,1,1" := by
  have h := C8_lbw_passthrough.1 ⟨"A", PyFloat.num 1 0, some "0,0,1,1"⟩ "0,0,1,1"
    rfl (by decide)
  rw [h]
  decide

/-- C9: matching is case-sensitive exact comparison at both stages — a name
absent from the selectable list and absent from the index keys matches
nothing, and concretely a reference differing only in case from the index
key `TrainedName` (with the selectable list differing only in case from
`file123`) stays unmatched while still appearing in the canonical string. -/
theorem C9_case_sensitive :
    (∀ sel lkp name, name ∉ sel → dictGet lkp name = none →
      matchRef sel lkp name = none)
    ∧ dictGet [("TrainedName", "file123")] "trainedname" = none
    ∧ "file123" ∉ (["File123"] : List String)
    ∧ extract_loras_from_prompt envC1 (PromptInput.str "<lora:trainedname:1>")
        (some ["File123"]) = ([], "trainedname:1.0") := by
  refine ⟨?_, by decide, by decide, by decide⟩
  intro sel lkp name h1 h2
  simp [matchRef, h1, h2]

/-- Witness for C9 on the concrete case-mismatched name. -/
theorem C9_case_sensitive_witness :
    matchRef ["File123"] [("TrainedName", "file123")] "trainedname" = none := by
  exact C9_case_sensitive.1 ["File123"] [("TrainedName", "file123")] "trainedname"
    (by decide) (by decide)

/-- C10: a whitespace-only third field strips to the empty string, which the
`if lbw:` guard treats as absent, so the canonical part is rendered as
`name:weight` exactly as for a two-field reference; concretely
`<lora:A:1: >` resolves identically to `<lora:A:1>`. -/
theorem C10_blank_lbw :
    (∀ g, (∀ c ∈ g, isPySpace c = true) →
      ∀ g1 g2, (mkRef (g1, g2, some g)).lbw = some "")
    ∧ (∀ r : LoraRef, r.lbw = some "" →
        formatPart r = r.name ++ ":" ++ pyFloatRepr r.weight)
    ∧ parseLoraSyntax "<lora:A:1: >" = [⟨"A", PyFloat.num 1 0, some ""⟩]
    ∧ extract_loras_from_prompt emptyEnv (PromptInput.str "<lora:A:1: >") (some ["A"])
        = (["A"], "A:1.0")
    ∧ extract_loras_from_prompt emptyEnv (PromptInput.str "<lora:A:1>") (some ["A"])
        = (["A"], "A:1.0") := by
  refine ⟨?_, ?_, by decide, by decide, by decide⟩
  · intro g hg g1 g2
    simp [mkRef, pyStrip_allSpace g hg]
  · intro r h
    simp [formatPart, h]

/-- Witness for C10 on the single-space third field. -/
theorem C10_blank_lbw_witness :
    (mkRef (['A'], ['1'], some [' '])).lbw = some "" := by
  exact C10_blank_lbw.1 [' '] (by decide) ['A'] ['1']
